import Mathlib

/-!
Verification of the playback session orchestrator of the audictl/tunectl
repository.

The daemon (package main, daemon struct) owns a queue of provider tracks, a
current track, the current mpv process handle and a buffered wait channel,
all guarded by one mutex.  We embed the lock-protected critical sections of
its operations as pure functions on an explicit state record.  Process
handles are modelled by natural-number identifiers drawn from a fresh
counter; the set of running (spawned, not yet exited) processes and the set
of exited processes whose watcher goroutine has not yet performed its
identity check are carried in the state, so that watcher races can be
interleaved as separate events between operations.

Go machine integers that matter here (search limits, durations, bitrates)
are modelled as Int; no arithmetic in the embedded code can overflow a
64-bit int, so no explicit wraparound is required.  Fallible Go functions
returning (T, error) are modelled with Except String T.
-/

namespace Tunectl

/-- Track value, from internal/provider (struct Track). -/
structure Track where
  id : String
  provider : String
  title : String
  artist : String
  album : String
  duration : Int
  links : List (String × String)
  isStream : Bool
  drm : Bool
  tags : List (String × String)
deriving DecidableEq, Repr

/-- Stream value, from internal/provider (struct Stream).  The Go field
ExpiresAt (time.Time) is modelled as a Nat with 0 for the zero time. -/
structure Stream where
  url : String
  container : String
  codec : String
  bitrate : Int
  sampleRate : Int
  bitDepth : Int
  channels : Int
  lossless : Bool
  expiresAt : Nat
  meta : List (String × String)
deriving DecidableEq, Repr

/-- Daemon session state (struct daemon, mutable fields guarded by mu).
`currCmd` and `currWaitCh` hold the identifier of the recorded process and
of its buffered wait channel (in the source a channel is created per spawn
and recorded together with the process, so both carry the same identifier
here).  `nextPid` is the supply of fresh process identifiers; `alive` is
the list of spawned processes that have not exited yet; `watcherPending`
is the list of processes that have exited (naturally or after a kill) but
whose watcher goroutine has not yet run its identity check. -/
structure DState where
  queue : List Track
  curr : Option Track
  currCmd : Option Nat
  currWaitCh : Option Nat
  nextPid : Nat
  alive : List Nat
  watcherPending : List Nat
deriving DecidableEq, Repr

/-- The daemon starts with an empty queue and nothing playing. -/
def initState : DState :=
  { queue := [], curr := none, currCmd := none, currWaitCh := none,
    nextPid := 0, alive := [], watcherPending := [] }

/-- daemon.stopPlayback.  Under the lock it captures the recorded process
and channel and clears `currCmd`, `currWaitCh` and `curr`; with no process
recorded it returns nil at once.  Otherwise it issues the kill and waits
(bounded) for the exit.  The killed process leaves `alive`; its watcher
goroutine will still wake up and run its identity check later, so the
process joins `watcherPending`.  `exitErr` abstracts the outcome of the
bounded wait (process exit error or timeout).  Returns the new state, the
process that was signalled (if any) and whether the call returned nil. -/
def stopPlayback (s : DState) (exitErr : Bool) : DState × Option Nat × Bool :=
  let cmd := s.currCmd
  let s1 := { s with currCmd := none, currWaitCh := none, curr := none }
  match cmd with
  | none => (s1, none, true)
  | some p =>
    let s2 := if p ∈ s1.alive
      then { s1 with alive := s1.alive.erase p,
                     watcherPending := p :: s1.watcherPending }
      else s1
    (s2, some p, !exitErr)

/-- daemon.resolveNext.  Under the lock: with an empty queue returns nil,
otherwise pops the head and records it as the current track. -/
def resolveNext (s : DState) : DState × Option Track :=
  match s.queue with
  | [] => (s, none)
  | t :: rest => ({ s with queue := rest, curr := some t }, some t)

/-- daemon.next.  Stops the current playback (result discarded, as in the
source), advances the queue; an empty queue is a success no-op.  Otherwise
resolves a stream for the new track and spawns mpv: `streamOk` abstracts
success of the ResolveStream and mpv.Start calls (on failure the error is
returned with the popped track still recorded as current, exactly as in
the source).  On success the fresh process and its wait channel are
recorded under the lock and a watcher goroutine is tied to that process. -/
def next (s : DState) (exitErr streamOk : Bool) : DState × Option String :=
  let s1 := (stopPlayback s exitErr).1
  match resolveNext s1 with
  | (s2, none) => (s2, none)
  | (s2, some _t) =>
    if streamOk then
      let pid := s2.nextPid
      ({ s2 with nextPid := pid + 1, alive := pid :: s2.alive,
                 currCmd := some pid, currWaitCh := some pid }, none)
    else
      (s2, some "stream resolution or spawn failed")

/-- Body of the watcher goroutine spawned by daemon.next after its Wait on
process `p` returned (the non-blocking send on the buffered channel is
absorbed into the stop model).  Under the lock it checks whether `p` is
still the recorded process; only then does it clear the current
track/process fields, and only then does it call next to auto-advance.
Returns the state and whether an auto-advance was triggered. -/
def watcherCheck (s : DState) (p : Nat) (exitErr streamOk : Bool) :
    DState × Bool :=
  if s.currCmd = some p then
    let s1 := { s with curr := none, currCmd := none, currWaitCh := none }
    ((next s1 exitErr streamOk).1, true)
  else
    (s, false)

/-- State effect of daemon.enqueue once provider resolution has produced
`r`: a resolution error is returned with no mutation, a resolved track is
appended to the queue tail under the lock. -/
def enqueueApply (s : DState) (r : Except String Track) :
    DState × Option String :=
  match r with
  | .error e => (s, some e)
  | .ok t => ({ s with queue := s.queue ++ [t] }, none)

/-- State effect of daemon.enqueueAndPlay on resolution result `r`: after a
successful enqueue, when `immediate` is set and no current track is
recorded it calls next (returning next's result), otherwise it returns
nil. -/
def enqueueAndPlayApply (s : DState) (r : Except String Track)
    (immediate exitErr streamOk : Bool) : DState × Option String :=
  match enqueueApply s r with
  | (s1, some e) => (s1, some e)
  | (s1, none) =>
    if immediate then
      if s1.curr = none then next s1 exitErr streamOk else (s1, none)
    else (s1, none)

/-- Events of the serialized interleaving semantics: the daemon's
lock-protected command handlers (each connection handler runs one), the
natural exit of a running process, and the deferred identity check of an
exited process's watcher.  Command events carry the abstract outcomes of
the blocking collaborator calls (provider resolution, bounded exit wait,
stream resolution / spawn). -/
inductive Ev where
  | play (r : Except String Track) (exitErr streamOk : Bool)
  | enq (r : Except String Track)
  | nextCmd (exitErr streamOk : Bool)
  | stopCmd (exitErr : Bool)
  | procExit (p : Nat)
  | watch (p : Nat) (exitErr streamOk : Bool)

/-- One event of the daemon transition system. -/
def step (s : DState) (e : Ev) : DState :=
  match e with
  | .play r ee ok => (enqueueAndPlayApply s r true ee ok).1
  | .enq r => (enqueueApply s r).1
  | .nextCmd ee ok => (next s ee ok).1
  | .stopCmd ee => (stopPlayback s ee).1
  | .procExit p =>
    if p ∈ s.alive
      then { s with alive := s.alive.erase p,
                    watcherPending := p :: s.watcherPending }
      else s
  | .watch p ee ok =>
    if p ∈ s.watcherPending
      then (watcherCheck
              { s with watcherPending := s.watcherPending.erase p } p ee ok).1
      else s

/-- Run a sequence of events from the daemon's initial state. -/
def run (es : List Ev) : DState := es.foldl step initState

/-! ## Provider resolution pipeline (daemon.enqueue) -/

/-- Character-list test that `pat` is a prefix of `s`. -/
def isPrefixL : List Char → List Char → Bool
  | [], _ => true
  | _ :: _, [] => false
  | a :: as, b :: bs => a = b && isPrefixL as bs

/-- Remove the prefix `pat` from `s`, if present. -/
def stripPrefixL : List Char → List Char → Option (List Char)
  | [], s => some s
  | _ :: _, [] => none
  | a :: as, b :: bs => if a = b then stripPrefixL as bs else none

/-- Test that string `sub` occurs contiguously in `s` (strings.Contains). -/
def containsSub (s sub : String) : Bool :=
  go sub.toList s.toList
where
  go (pat : List Char) : List Char → Bool
    | [] => isPrefixL pat []
    | c :: rest => isPrefixL pat (c :: rest) || go pat rest

/-- The guard in daemon.enqueue:
len(query) at least 8 and query[:8] equal to "spotify:". -/
def hasSpotifyScheme (query : String) : Bool :=
  isPrefixL ("spotify:".toList) query.toList

/-- daemon.enqueue's resolution pipeline over abstract provider
collaborators.  `spGet` stands for the spotify provider's GetTrack and
`ytSearch` for the youtube provider's Search with kind track and limit 1.
A query with the spotify scheme is resolved for metadata with the spotify
provider and the track actually used is the first result of a youtube
search for "Artist - Title"; any other query goes straight to youtube
search.  Search failures (error or no results) are wrapped as in the
source with fmt.Errorf. -/
def enqueueResolve (spGet : String → Except String Track)
    (ytSearch : String → Except String (List Track)) (query : String) :
    Except String Track :=
  if hasSpotifyScheme query then
    match spGet query with
    | .error e => .error e
    | .ok t =>
      match ytSearch (t.artist ++ " - " ++ t.title) with
      | .error e => .error ("youtube search failed: " ++ e)
      | .ok [] => .error "youtube search failed: "
      | .ok (r :: _) => .ok r
  else
    match ytSearch query with
    | .error e => .error ("search failed: " ++ e)
    | .ok [] => .error "search failed: "
    | .ok (r :: _) => .ok r

/-- daemon.enqueue: resolve the query and append the result to the queue
tail under the lock. -/
def enqueue (spGet : String → Except String Track)
    (ytSearch : String → Except String (List Track)) (s : DState)
    (query : String) : DState × Option String :=
  enqueueApply s (enqueueResolve spGet ytSearch query)

/-- daemon.enqueueAndPlay (the play command calls it with immediate set). -/
def enqueueAndPlay (spGet : String → Except String Track)
    (ytSearch : String → Except String (List Track)) (s : DState)
    (query : String) (immediate exitErr streamOk : Bool) :
    DState × Option String :=
  enqueueAndPlayApply s (enqueueResolve spGet ytSearch query)
    immediate exitErr streamOk

/-- SpotifyProvider.ResolveStream (providers/spotify/spotify.go): the
spotify provider is metadata-only and never supplies playable audio. -/
def spotifyResolveStream (_track : Track) : Except String Stream :=
  .error "spotify provider does not supply playable audio"

/-! ## YouTube provider (providers/youtube) -/

/-- Fields that YouTubeProvider.Search reads from one line of yt-dlp JSON
output, after the safeString / safeFloat64 coercions (absent keys coerce
to "" and 0; `duration` is Go int(safeFloat64(...))). -/
structure YMeta where
  title : String
  uploader : String
  channel : String
  id : String
  url : String
  duration : Int
deriving DecidableEq, Repr

/-- Track constructed by YouTubeProvider.Search from one parsed line:
uploader falls back to channel, id falls back to url, and the youtube link
is synthesised from the id.  All remaining Track fields Go-zero (in
particular DRM is false). -/
def trackOfMeta (m : YMeta) : Track :=
  let uploader := if m.uploader = "" then m.channel else m.uploader
  let id := if m.id = "" then m.url else m.id
  { id := "youtube:" ++ id, provider := "youtube", title := m.title,
    artist := uploader, album := "", duration := m.duration,
    links := [("youtube", "https://www.youtube.com/watch?v=" ++ id)],
    isStream := false, drm := false, tags := [] }

/-- The per-line loop of YouTubeProvider.Search: empty lines and lines
that fail json.Unmarshal (both modelled as none) are skipped, every other
line contributes one track in order. -/
def parseSearchLines (lines : List (Option YMeta)) : List Track :=
  match lines with
  | [] => []
  | none :: rest => parseSearchLines rest
  | some m :: rest => trackOfMeta m :: parseSearchLines rest

/-- The limit clamp at the top of YouTubeProvider.Search: nonpositive
limits become 10, limits above 20 become 20. -/
def clampLimit (limit : Int) : Int :=
  if limit ≤ 0 then 10
  else if limit > 20 then 20
  else limit

/-- The ytsearch query string handed to yt-dlp, built from the clamped
limit. -/
def ytSearchQuery (query : String) (limit : Int) : String :=
  "ytsearch" ++ toString (clampLimit limit) ++ ":" ++ query

/-- YouTubeProvider.Search.  `tool` abstracts running yt-dlp -j
--flat-playlist on the given query string: a Go error from cmd.Output, or
the per-line parse outcomes of its output.  Zero parsed tracks is an
error ("no results found"), never an empty success. -/
def youtubeSearch (query : String) (limit : Int)
    (tool : String → Except String (List (Option YMeta))) :
    Except String (List Track) :=
  match tool (ytSearchQuery query limit) with
  | .error e => .error ("yt-dlp search failed: " ++ e)
  | .ok lines =>
    match parseSearchLines lines with
    | [] => .error "no results found"
    | t :: ts => .ok (t :: ts)

/-- One entry of the formats array in yt-dlp's JSON, after safeString /
safeFloat64 (plain float64 abr modelled as a rational). -/
structure JFormat where
  url : String
  acodec : String
  ext : String
  abr : Rat
deriving DecidableEq, Repr

/-- Best-audio accumulator of YouTubeProvider.ResolveStream. -/
structure Chosen where
  url : String
  ext : String
  codec : String
  abr : Rat
deriving DecidableEq, Repr

/-- Loop body of the format scan: skip entries without a direct URL or
with acodec "none"; otherwise take the entry when nothing was chosen yet
or its abr is higher. -/
def chooseStep (acc : Chosen) (f : JFormat) : Chosen :=
  if f.url = "" then acc
  else if f.acodec = "none" then acc
  else if acc.url = "" || acc.abr < f.abr then
    { url := f.url, ext := f.ext, codec := f.acodec, abr := f.abr }
  else acc

/-- The full scan over the formats array (Go zero values as the start). -/
def chooseBest (fmts : List JFormat) : Chosen :=
  fmts.foldl chooseStep { url := "", ext := "", codec := "", abr := 0 }

/-- Target computation at the top of YouTubeProvider.ResolveStream: the
track's youtube link, else a watch URL derived from a youtube-prefixed id,
else a ytsearch1 query from artist and title. -/
def resolveTarget (t : Track) : String :=
  let target := (t.links.lookup "youtube").getD ""
  if target = "" then
    match stripPrefixL ("youtube:".toList) t.id.toList with
    | some rest => "https://www.youtube.com/watch?v=" ++ String.mk rest
    | none => "ytsearch1:" ++ t.artist ++ " - " ++ t.title
  else target

/-- Stream returned on the fallback paths of ResolveStream: the original
page/target URL with a note in Meta, all other fields Go-zero. -/
def fallbackStream (target note : String) : Stream :=
  { url := target, container := "", codec := "", bitrate := 0,
    sampleRate := 0, bitDepth := 0, channels := 0, lossless := false,
    expiresAt := 0, meta := [("note", note)] }

/-- Outcome of the yt-dlp JSON extraction run by ResolveStream:
cmd.Output failed, its output was not valid JSON, or a parsed object with
its formats array (an absent formats key behaves as an empty array). -/
inductive ToolOut where
  | cmdError
  | badJson
  | parsed (formats : List JFormat)

/-- YouTubeProvider.ResolveStream.  Tool failure, no usable direct-URL
audio format, and a chosen URL containing "googlevideo.com" or "rr" all
fall back to a success carrying the page/target URL with a Meta note;
only unparseable JSON is an error.  Go int(chosenAbr) truncates toward
zero, modelled with truncating division on the rational's numerator and
denominator. -/
def resolveStreamY (t : Track) (out : ToolOut) : Except String Stream :=
  let target := resolveTarget t
  match out with
  | .cmdError => .ok (fallbackStream target "fallback to page URL")
  | .badJson => .error "invalid json"
  | .parsed fmts =>
    let c := chooseBest fmts
    if c.url = "" then
      .ok (fallbackStream target "fallback to page URL")
    else if containsSub c.url "googlevideo.com" || containsSub c.url "rr" then
      .ok (fallbackStream target
        "fallback to page URL (direct googlevideo URL skipped)")
    else
      .ok { url := c.url, container := c.ext, codec := c.codec,
            bitrate := c.abr.num.tdiv c.abr.den, sampleRate := 0,
            bitDepth := 0, channels := 0, lossless := false,
            expiresAt := 0, meta := [("orig", target)] }

/-! ## Go slice semantics of the status snapshot

The status handler executes, under one lock acquisition,
q := d.queue (a copy of the slice header) and releases the lock before
encoding q.  Whether the reported sequence can be affected by later queue
mutations is a question about Go slice aliasing, so the queue is modelled
here with explicit backing arrays and slice headers: a heap of arrays, a
header (array id, offset, length), append with Go's in-place-when-capacity
rule (growth allocates a fresh array initialised with the visible
elements), and the daemon's only other queue mutation, the pop
d.queue = d.queue[1:] in resolveNext. -/

/-- A Go slice header: backing array id, start offset, length. -/
structure SliceHdr where
  arr : Nat
  off : Nat
  len : Nat
deriving DecidableEq, Repr

/-- The backing array with identifier `i` (absent ids read as empty). -/
def getArr (h : List (List Track)) (i : Nat) : List Track := h.getD i []

/-- The sequence of elements a header denotes. -/
def view (h : List (List Track)) (sl : SliceHdr) : List Track :=
  ((getArr h sl.arr).drop sl.off).take sl.len

/-- d.queue = append(d.queue, t): when capacity remains past the visible
elements the element is written in place into the shared backing array,
otherwise a fresh array is allocated holding the visible elements and the
new one (the amount of spare capacity Go reserves on growth does not
affect which cells are ever written, so it is not tracked). -/
def qAppend (h : List (List Track)) (sl : SliceHdr) (t : Track) :
    List (List Track) × SliceHdr :=
  let a := getArr h sl.arr
  if sl.off + sl.len < a.length then
    (h.set sl.arr (a.set (sl.off + sl.len) t), { sl with len := sl.len + 1 })
  else
    (h ++ [view h sl ++ [t]], { arr := h.length, off := 0, len := sl.len + 1 })

/-- d.queue = d.queue[1:] (resolveNext pop; the source only reslices a
nonempty queue, an empty one is left alone). -/
def qPop (sl : SliceHdr) : SliceHdr :=
  if sl.len = 0 then sl else { sl with off := sl.off + 1, len := sl.len - 1 }

/-- The daemon's queue mutations after a snapshot: appends from enqueue
and pops from resolveNext. -/
inductive QOp where
  | add (t : Track)
  | pop

/-- Apply one queue mutation to the heap and the daemon's live header. -/
def qstep (hs : List (List Track) × SliceHdr) (op : QOp) :
    List (List Track) × SliceHdr :=
  match op with
  | .add t => qAppend hs.1 hs.2 t
  | .pop => (hs.1, qPop hs.2)

/-- Apply a sequence of queue mutations. -/
def qrun (hs : List (List Track) × SliceHdr) (ops : List QOp) :
    List (List Track) × SliceHdr :=
  ops.foldl qstep hs

/-- The queue part of the status response: the sequence denoted by the
header that the handler copied under the lock, read against the heap at
encoding time. -/
def statusSnapshot (h : List (List Track)) (sl : SliceHdr) : List Track :=
  view h sl

/-! ## Concrete instances used to evaluate the theorems -/

/-- Concrete resolved tracks for scenario traces (shape of tracks built by
the youtube provider). -/
def tA : Track :=
  { id := "youtube:a", provider := "youtube", title := "A", artist := "artA",
    album := "", duration := 0,
    links := [("youtube", "https://www.youtube.com/watch?v=a")],
    isStream := false, drm := false, tags := [] }

/-- Second concrete track. -/
def tB : Track :=
  { id := "youtube:b", provider := "youtube", title := "B", artist := "artB",
    album := "", duration := 0,
    links := [("youtube", "https://www.youtube.com/watch?v=b")],
    isStream := false, drm := false, tags := [] }

/-- Third concrete track. -/
def tC : Track :=
  { id := "youtube:c", provider := "youtube", title := "C", artist := "artC",
    album := "", duration := 0,
    links := [("youtube", "https://www.youtube.com/watch?v=c")],
    isStream := false, drm := false, tags := [] }

/-- Reachable state after enqueueing one track and issuing a next command
whose stream resolution fails: the popped track stays recorded as current
although no process is recorded. -/
def failedAdvanceState : DState :=
  step (step initState (Ev.enq (Except.ok tA))) (Ev.nextCmd false false)

/-- Reachable state with tA playing as process 0. -/
def playingState : DState :=
  step (step initState (Ev.enq (Except.ok tA))) (Ev.nextCmd false true)

/-- Reachable state for the auto-advance identity-check construct:
process 0 (playing tA) exited naturally, and a next command then started
process 1 (playing tB) before process 0's watcher ran its check. -/
def c2TraceState : DState :=
  run [Ev.enq (Except.ok tA), Ev.enq (Except.ok tB), Ev.nextCmd false true,
       Ev.procExit 0, Ev.nextCmd false true]

/-- A DRM-flagged spotify metadata track. -/
def tSpot : Track :=
  { id := "spotify:track:1", provider := "spotify", title := "Song",
    artist := "Artist", album := "Alb", duration := 0, links := [],
    isStream := false, drm := true, tags := [] }

/-- Parsed yt-dlp metadata line used in concrete searches. -/
def ymW : YMeta :=
  { title := "Song", uploader := "Artist", channel := "", id := "vid1",
    url := "", duration := 200 }

/-- The youtube track resolved from `ymW`. -/
def tYt : Track := trackOfMeta ymW

/-- Spotify GetTrack collaborator that succeeds with `tSpot`. -/
def spGetW : String → Except String Track := fun _ => Except.ok tSpot

/-- Spotify GetTrack collaborator that fails. -/
def spGetFail : String → Except String Track := fun _ => Except.error "boom"

/-- YouTube Search collaborator that returns `tYt`. -/
def ytSearchW : String → Except String (List Track) :=
  fun _ => Except.ok [tYt]

/-- A format entry with no direct URL usable for audio. -/
def jfNoUrl : JFormat := { url := "", acodec := "opus", ext := "webm", abr := 128 }

/-- A format entry whose direct URL is a short-lived googlevideo URL. -/
def jfGoogle : JFormat :=
  { url := "https://rr4---sn.googlevideo.com/videoplayback", acodec := "opus",
    ext := "webm", abr := 128 }

/-- Inductive invariant of the daemon transition system: the running
processes are exactly the recorded current process when it has not exited
yet (otherwise there are none); identifiers of running and
watcher-pending processes are below the fresh counter; and no process is
simultaneously running and watcher-pending. -/
def Inv (s : DState) : Prop :=
  (s.alive = [] ∨ ∃ p, s.currCmd = some p ∧ s.alive = [p]) ∧
  (∀ p ∈ s.alive, p < s.nextPid) ∧
  (∀ p ∈ s.watcherPending, p < s.nextPid) ∧
  (∀ p ∈ s.alive, p ∉ s.watcherPending)

/-- Snapshot-preservation invariant of the slice model, relative to the
snapshot heap `h0` and snapshot header `sl0`: the snapshot still denotes
the same sequence, both headers stay in bounds, and while the live header
still shares the snapshot's backing array its visible region ends no
earlier than the snapshot's, so in-place appends always write past the
snapshot. -/
def QInv (h0 : List (List Track)) (sl0 : SliceHdr)
    (hs : List (List Track) × SliceHdr) : Prop :=
  view hs.1 sl0 = view h0 sl0 ∧
  sl0.arr < hs.1.length ∧
  hs.2.arr < hs.1.length ∧
  hs.2.off + hs.2.len ≤ (getArr hs.1 hs.2.arr).length ∧
  (hs.2.arr = sl0.arr → sl0.off + sl0.len ≤ hs.2.off + hs.2.len)

/-! ## Invariant: at most one live player process -/

theorem inv_initState : Inv initState := by
  refine ⟨Or.inl rfl, ?_, ?_, ?_⟩ <;> simp [initState]

theorem stopPlayback_inv (s : DState) (ee : Bool) (h : Inv s) :
    Inv (stopPlayback s ee).1 ∧ (stopPlayback s ee).1.alive = [] ∧
    (stopPlayback s ee).1.currCmd = none ∧
    (stopPlayback s ee).1.curr = none ∧
    (stopPlayback s ee).1.nextPid = s.nextPid ∧
    (stopPlayback s ee).1.queue = s.queue := by
  obtain ⟨h1, h2, h3, h4⟩ := h
  cases hc : s.currCmd with
  | none =>
    have ha : s.alive = [] := by
      rcases h1 with h1 | ⟨p, hp, _⟩
      · exact h1
      · rw [hc] at hp; cases hp
    simp only [stopPlayback, hc]
    refine ⟨⟨Or.inl ha, h2, h3, h4⟩, ha, ?_, ?_, ?_, ?_⟩ <;> trivial
  | some p =>
    simp only [stopPlayback, hc]
    rcases h1 with ha | ⟨q, hq, ha⟩
    · have hmem : ¬ p ∈ s.alive := by simp [ha]
      rw [if_neg hmem]
      refine ⟨⟨Or.inl ha, h2, h3, h4⟩, ha, ?_, ?_, ?_, ?_⟩ <;> trivial
    · rw [hc] at hq
      injection hq with hq
      subst hq
      have hmem : p ∈ s.alive := by simp [ha]
      have herase : s.alive.erase p = [] := by
        rw [ha]; exact List.erase_cons_head p []
      rw [if_pos hmem]
      refine ⟨⟨Or.inl herase, ?_, ?_, ?_⟩, herase, ?_, ?_, ?_, ?_⟩ <;>
        try trivial
      · intro q hqm; rw [herase] at hqm; cases hqm
      · intro q hqm
        rcases List.mem_cons.mp hqm with rfl | hqm
        · exact h2 q hmem
        · exact h3 q hqm
      · intro q hqm; rw [herase] at hqm; cases hqm

theorem next_inv (s : DState) (ee ok : Bool) (h : Inv s) :
    Inv (next s ee ok).1 := by
  obtain ⟨hi, ha, hcmd, hcur, hnp, hq⟩ := stopPlayback_inv s ee h
  obtain ⟨hi1, hi2, hi3, hi4⟩ := hi
  cases hql : (stopPlayback s ee).1.queue with
  | nil =>
    simp only [next, resolveNext, hql]
    exact ⟨Or.inl ha, hi2, hi3, hi4⟩
  | cons t rest =>
    cases ok with
    | false =>
      simp only [next, resolveNext, hql, Bool.false_eq_true, if_false]
      exact ⟨Or.inl ha, hi2, hi3, hi4⟩
    | true =>
      simp only [next, resolveNext, hql, if_true]
      refine ⟨Or.inr ⟨(stopPlayback s ee).1.nextPid, rfl, ?_⟩, ?_, ?_, ?_⟩
      · show (stopPlayback s ee).1.nextPid :: (stopPlayback s ee).1.alive =
          [(stopPlayback s ee).1.nextPid]
        rw [ha]
      · intro q hq2
        rcases List.mem_cons.mp hq2 with rfl | hq2
        · exact Nat.lt_succ_self _
        · rw [ha] at hq2; cases hq2
      · intro q hq2
        exact lt_trans (hi3 q hq2) (Nat.lt_succ_self _)
      · intro q hq2
        rcases List.mem_cons.mp hq2 with rfl | hq2
        · intro hmem
          exact absurd (hi3 _ hmem) (lt_irrefl _)
        · rw [ha] at hq2; cases hq2

theorem step_inv (s : DState) (e : Ev) (h : Inv s) : Inv (step s e) := by
  cases e with
  | play r ee ok =>
    cases r with
    | error err => simpa [step, enqueueAndPlayApply, enqueueApply] using h
    | ok t =>
      obtain ⟨h1, h2, h3, h4⟩ := h
      have h' : Inv { s with queue := s.queue ++ [t] } := ⟨h1, h2, h3, h4⟩
      by_cases hc : s.curr = none
      · simpa [step, enqueueAndPlayApply, enqueueApply, hc] using
          next_inv { s with queue := s.queue ++ [t] } ee ok h'
      · simpa [step, enqueueAndPlayApply, enqueueApply, hc] using h'
  | enq r =>
    cases r with
    | error err => simpa [step, enqueueApply] using h
    | ok t =>
      obtain ⟨h1, h2, h3, h4⟩ := h
      simp only [step, enqueueApply]
      exact ⟨h1, h2, h3, h4⟩
  | nextCmd ee ok => exact next_inv s ee ok h
  | stopCmd ee => exact (stopPlayback_inv s ee h).1
  | procExit p =>
    obtain ⟨h1, h2, h3, h4⟩ := h
    by_cases hp : p ∈ s.alive
    · have ha : s.alive = [p] := by
        rcases h1 with h1 | ⟨q, hq, ha⟩
        · rw [h1] at hp; cases hp
        · rw [ha] at hp
          rcases List.mem_singleton.mp hp with rfl
          exact ha
      have herase : s.alive.erase p = [] := by
        rw [ha]; exact List.erase_cons_head p []
      simp only [step, if_pos hp]
      refine ⟨Or.inl herase, ?_, ?_, ?_⟩
      · intro q hqm; rw [herase] at hqm; cases hqm
      · intro q hqm
        rcases List.mem_cons.mp hqm with rfl | hqm
        · exact h2 q hp
        · exact h3 q hqm
      · intro q hqm; rw [herase] at hqm; cases hqm
    · simp only [step, if_neg hp]
      exact ⟨h1, h2, h3, h4⟩
  | watch p ee ok =>
    obtain ⟨h1, h2, h3, h4⟩ := h
    by_cases hp : p ∈ s.watcherPending
    · have h2e : ∀ q ∈ s.alive, q < s.nextPid := h2
      have h3e : ∀ q ∈ s.watcherPending.erase p, q < s.nextPid :=
        fun q hqm => h3 q (List.mem_of_mem_erase hqm)
      have h4e : ∀ q ∈ s.alive, q ∉ s.watcherPending.erase p :=
        fun q hqm hqe => h4 q hqm (List.mem_of_mem_erase hqe)
      simp only [step, if_pos hp]
      by_cases hcp :
          ({ s with watcherPending := s.watcherPending.erase p } : DState).currCmd
            = some p
      · have haliv : s.alive = [] := by
          rcases h1 with h1 | ⟨q, hq, ha⟩
          · exact h1
          · exfalso
            have hqp : q = p := by
              have : some q = some p := by rw [← hq]; exact hcp
              injection this
            exact h4 q (by simp [ha]) (hqp ▸ hp)
        simp only [watcherCheck, if_pos hcp]
        exact next_inv _ ee ok ⟨Or.inl haliv, h2e, h3e, h4e⟩
      · simp only [watcherCheck, if_neg hcp]
        exact ⟨h1, h2e, h3e, h4e⟩
    · simp only [step, if_neg hp]
      exact ⟨h1, h2, h3, h4⟩

theorem foldl_step_inv (es : List Ev) :
    ∀ s : DState, Inv s → Inv (es.foldl step s) := by
  induction es with
  | nil => intro s h; exact h
  | cons e es ih => intro s h; exact ih _ (step_inv s e h)

theorem run_inv (es : List Ev) : Inv (run es) :=
  foldl_step_inv es initState inv_initState

/-! ## Slice-model lemmas for the status snapshot -/

theorem getArr_set_ne (h : List (List Track)) (i j : Nat) (x : List Track)
    (hij : i ≠ j) : getArr (h.set i x) j = getArr h j := by
  induction h generalizing i j with
  | nil => rfl
  | cons a t ih =>
    cases i with
    | zero =>
      cases j with
      | zero => exact absurd rfl hij
      | succ j => rfl
    | succ i =>
      cases j with
      | zero => rfl
      | succ j => exact ih i j fun hc => hij (by rw [hc])

theorem getArr_set_self (h : List (List Track)) (i : Nat) (x : List Track)
    (hi : i < h.length) : getArr (h.set i x) i = x := by
  induction h generalizing i with
  | nil => cases hi
  | cons a t ih =>
    cases i with
    | zero => rfl
    | succ i => exact ih i (Nat.lt_of_succ_lt_succ hi)

theorem getArr_append_lt (h : List (List Track)) (x : List Track) (j : Nat)
    (hj : j < h.length) : getArr (h ++ [x]) j = getArr h j := by
  induction h generalizing j with
  | nil => cases hj
  | cons a t ih =>
    cases j with
    | zero => rfl
    | succ j => exact ih j (Nat.lt_of_succ_lt_succ hj)

theorem getArr_append_self (h : List (List Track)) (x : List Track) :
    getArr (h ++ [x]) h.length = x := by
  induction h with
  | nil => rfl
  | cons a t ih => exact ih

theorem take_drop_set :
    ∀ (a : List Track) (i off len : Nat) (t : Track), off + len ≤ i →
      ((a.set i t).drop off).take len = (a.drop off).take len
  | [], _, _, _, _, _ => by simp
  | x :: xs, i, off, len, t, h => by
    cases i with
    | zero =>
      have hoff : off = 0 := by omega
      have hlen : len = 0 := by omega
      subst hoff; subst hlen; simp
    | succ i =>
      cases off with
      | zero =>
        cases len with
        | zero => simp
        | succ len =>
          simp only [List.set_cons_succ, List.drop_zero, List.take_succ_cons]
          have hx := take_drop_set xs i 0 len t (by omega)
          simp only [List.drop_zero] at hx
          rw [hx]
      | succ off =>
        simp only [List.set_cons_succ, List.drop_succ_cons]
        exact take_drop_set xs i off len t (by omega)

theorem view_length (h : List (List Track)) (sl : SliceHdr)
    (hb : sl.off + sl.len ≤ (getArr h sl.arr).length) :
    (view h sl).length = sl.len := by
  simp only [view, List.length_take, List.length_drop]
  omega

theorem qstep_QInv (h0 : List (List Track)) (sl0 : SliceHdr)
    (hs : List (List Track) × SliceHdr) (op : QOp)
    (h : QInv h0 sl0 hs) : QInv h0 sl0 (qstep hs op) := by
  obtain ⟨heap, sl⟩ := hs
  obtain ⟨hv, hb0, hb1, hb2, hmono⟩ := h
  dsimp only at hv hb0 hb1 hb2 hmono
  cases op with
  | pop =>
    by_cases hl : sl.len = 0
    · simp only [qstep, qPop, if_pos hl]
      exact ⟨hv, hb0, hb1, hb2, hmono⟩
    · simp only [qstep, qPop, if_neg hl]
      refine ⟨hv, hb0, hb1, ?_, ?_⟩
      · dsimp only
        omega
      · intro harr
        have := hmono harr
        dsimp only
        omega
  | add t =>
    by_cases hcap : sl.off + sl.len < (getArr heap sl.arr).length
    · simp only [qstep, qAppend, if_pos hcap]
      refine ⟨?_, ?_, ?_, ?_, ?_⟩
      · dsimp only
        rw [← hv]
        by_cases harr : sl.arr = sl0.arr
        · simp only [view, harr]
          rw [getArr_set_self heap sl0.arr _ (by rw [← harr]; exact hb1)]
          rw [← harr]
          exact take_drop_set _ _ _ _ _ (hmono harr)
        · simp only [view]
          rw [getArr_set_ne heap sl.arr sl0.arr _ harr]
      · dsimp only
        simpa using hb0
      · dsimp only
        simpa using hb1
      · dsimp only
        rw [getArr_set_self heap sl.arr _ hb1]
        simp only [List.length_set]
        omega
      · intro harr
        have := hmono harr
        dsimp only
        omega
    · simp only [qstep, qAppend, if_neg hcap]
      refine ⟨?_, ?_, ?_, ?_, ?_⟩
      · dsimp only
        rw [← hv]
        simp only [view]
        rw [getArr_append_lt heap _ sl0.arr hb0]
      · dsimp only
        simp only [List.length_append, List.length_singleton]
        omega
      · dsimp only
        simp only [List.length_append, List.length_singleton]
        omega
      · dsimp only
        rw [getArr_append_self]
        simp only [List.length_append, List.length_singleton,
          view_length heap sl hb2]
        omega
      · intro harr
        exfalso
        dsimp only at harr
        omega

theorem foldl_qstep_QInv (h0 : List (List Track)) (sl0 : SliceHdr)
    (ops : List QOp) :
    ∀ hs, QInv h0 sl0 hs → QInv h0 sl0 (ops.foldl qstep hs) := by
  induction ops with
  | nil => intro hs h; exact h
  | cons op ops ih => intro hs h; exact ih _ (qstep_QInv h0 sl0 hs op h)

theorem qrun_QInv (h0 : List (List Track)) (sl0 : SliceHdr)
    (hb0 : sl0.arr < h0.length)
    (hb1 : sl0.off + sl0.len ≤ (getArr h0 sl0.arr).length)
    (ops : List QOp) : QInv h0 sl0 (qrun (h0, sl0) ops) :=
  foldl_qstep_QInv h0 sl0 ops (h0, sl0)
    ⟨rfl, hb0, hb0, hb1, fun _ => le_refl _⟩

/-! ## Computation lemmas for the daemon operations -/

theorem stopPlayback_fields (s : DState) (ee : Bool) :
    (stopPlayback s ee).1.queue = s.queue ∧
    (stopPlayback s ee).1.nextPid = s.nextPid ∧
    (stopPlayback s ee).1.currCmd = none ∧
    (stopPlayback s ee).1.curr = none ∧
    (stopPlayback s ee).1.currWaitCh = none := by
  cases hc : s.currCmd with
  | none => simp [stopPlayback, hc]
  | some p =>
    by_cases hp : p ∈ s.alive <;>
      simp [stopPlayback, hc, hp]

theorem next_spawn_fields (s : DState) (ee : Bool) (t0 : Track)
    (rest : List Track) (h : s.queue = t0 :: rest) :
    (next s ee true).2 = none ∧
    (next s ee true).1.currCmd = some s.nextPid ∧
    (next s ee true).1.curr = some t0 ∧
    (next s ee true).1.queue = rest ∧
    (next s ee true).1.nextPid = s.nextPid + 1 := by
  obtain ⟨hq, hnp, _, _, _⟩ := stopPlayback_fields s ee
  have hq2 : (stopPlayback s ee).1.queue = t0 :: rest := by rw [hq, h]
  simp only [next, resolveNext, hq2, if_true]
  refine ⟨?_, ?_, ?_, ?_, ?_⟩ <;> first | trivial | rw [hnp]

theorem chooseBest_const (fmts : List JFormat)
    (hall : ∀ f ∈ fmts, f.url = "" ∨ f.acodec = "none") :
    ∀ acc : Chosen, fmts.foldl chooseStep acc = acc := by
  induction fmts with
  | nil => intro acc; rfl
  | cons f fs ih =>
    intro acc
    have hf : chooseStep acc f = acc := by
      rcases hall f (by simp) with h | h <;> simp [chooseStep, h]
    rw [List.foldl_cons, hf]
    exact ih (fun g hg => hall g (by simp [hg])) acc

theorem parseSearchLines_drm_free (lines : List (Option YMeta)) :
    ∀ r ∈ parseSearchLines lines, r.drm = false ∧ r.provider = "youtube" := by
  induction lines with
  | nil => intro r hr; cases hr
  | cons l rest ih =>
    cases l with
    | none => exact ih
    | some m =>
      intro r hr
      rcases List.mem_cons.mp hr with rfl | hr
      · exact ⟨rfl, rfl⟩
      · exact ih r hr

/-! ## The claims -/

/-- C1: for every sequence of Play, Next and Stop operations interleaved
with natural process exits (and the watcher checks they trigger), at most
one player process is un-reaped at any point, and any un-reaped process
is exactly the one recorded as current: Next runs the Stop path to
completion before recording a newly spawned process. -/
theorem c1_at_most_one_live_process (es : List Ev) :
    (run es).alive.length ≤ 1 ∧
    ∀ p ∈ (run es).alive, (run es).currCmd = some p := by
  obtain ⟨h1, _h2, _h3, _h4⟩ := run_inv es
  constructor
  · rcases h1 with h | ⟨p, _, h⟩ <;> simp [h]
  · intro p hp
    rcases h1 with h | ⟨q, hq, h⟩
    · rw [h] at hp; cases hp
    · rw [h] at hp
      rcases List.mem_singleton.mp hp with rfl
      exact hq

/-- C2: a watcher whose process is no longer the recorded current one
(superseded by Stop or Next) only removes its own pending entry and
changes nothing else — it neither clears the current-track/process fields
nor triggers an advance; the watcher of the still-current process reports
an advance and runs next on the cleared state. -/
theorem c2_watcher_identity_check (s : DState) (p : Nat) (ee ok : Bool) :
    (s.currCmd ≠ some p →
      step s (Ev.watch p ee ok) =
        { s with watcherPending := s.watcherPending.erase p } ∧
      (watcherCheck { s with watcherPending := s.watcherPending.erase p }
          p ee ok).2 = false) ∧
    (s.currCmd = some p → p ∈ s.watcherPending →
      (watcherCheck { s with watcherPending := s.watcherPending.erase p }
          p ee ok).2 = true ∧
      step s (Ev.watch p ee ok) =
        (next { s with
                watcherPending := s.watcherPending.erase p,
                curr := none, currCmd := none, currWaitCh := none }
          ee ok).1) := by
  constructor
  · intro hne
    constructor
    · by_cases hp : p ∈ s.watcherPending
      · simp [step, hp, watcherCheck, hne]
      · simp [step, hp, List.erase_of_not_mem hp]
    · simp [watcherCheck, hne]
  · intro hcp hp
    constructor
    · simp [watcherCheck, hcp]
    · simp [step, hp, watcherCheck, hcp]

/-- Witness for C2 on the spec's construct: process 0 (playing tA) exits
naturally, a next command starts process 1 (playing tB) before 0's
watcher runs, and 0's stale watcher then only removes its pending entry:
tB stays current, process 1 stays recorded, no advance is triggered. -/
theorem c2_witness :
    c2TraceState.curr = some tB ∧ c2TraceState.currCmd = some 1 ∧
    0 ∈ c2TraceState.watcherPending ∧
    step c2TraceState (Ev.watch 0 false true) =
      { c2TraceState with
        watcherPending := c2TraceState.watcherPending.erase 0 } ∧
    (watcherCheck { c2TraceState with
        watcherPending := c2TraceState.watcherPending.erase 0 }
        0 false true).2 = false :=
  ⟨by decide, by decide, by decide,
   ((c2_watcher_identity_check c2TraceState 0 false true).1 (by decide)).1,
   ((c2_watcher_identity_check c2TraceState 0 false true).1 (by decide)).2⟩

/-- C3 counterexample: after a next whose stream resolution failed, the
popped track is still recorded as current although no process is
recorded; Stop on that reachable state does change the state (it clears
the stale current-track field), refuting the claim that Stop called with
no current process recorded changes no state (it does signal no process
and return success there). -/
theorem c3_counterexample :
    failedAdvanceState.currCmd = none ∧
    failedAdvanceState.curr ≠ none ∧
    (stopPlayback failedAdvanceState false).1 ≠ failedAdvanceState ∧
    (stopPlayback failedAdvanceState false).2.1 = none ∧
    (stopPlayback failedAdvanceState false).2.2 = true := by
  decide

/-- C3 (amended): Stop with no recorded process signals no process,
returns success and changes nothing except clearing the (possibly stale)
current-track field; on a fully idle state it changes nothing at all; and
after any Stop, a second consecutive Stop signals no process, changes no
state and returns success — so no process is ever signalled twice. -/
theorem c3_stop_idempotent (s : DState) (e1 e2 : Bool) :
    (s.currCmd = none →
      stopPlayback s e1 =
        ({ s with curr := none, currCmd := none, currWaitCh := none },
          none, true)) ∧
    (s.currCmd = none → s.curr = none → s.currWaitCh = none →
      (stopPlayback s e1).1 = s) ∧
    stopPlayback (stopPlayback s e1).1 e2 =
      ((stopPlayback s e1).1, none, true) := by
  obtain ⟨qu, cu, cc, ch, np, al, wp⟩ := s
  refine ⟨?_, ?_, ?_⟩
  · intro h
    dsimp only at h
    subst h
    rfl
  · intro h1 h2 h3
    dsimp only at h1 h2 h3
    subst h1; subst h2; subst h3
    rfl
  · cases cc with
    | none => rfl
    | some p =>
      show stopPlayback
        (stopPlayback ⟨qu, cu, some p, ch, np, al, wp⟩ e1).1 e2 = _
      by_cases hp : p ∈ al
      · simp only [stopPlayback, if_pos hp]
      · simp only [stopPlayback, if_neg hp]

/-- Witness for C3 (amended) at the initial (idle) state. -/
theorem c3_witness :
    stopPlayback initState true =
      ({ initState with curr := none, currCmd := none, currWaitCh := none },
        none, true) ∧
    (stopPlayback initState true).1 = initState :=
  ⟨(c3_stop_idempotent initState true true).1 rfl,
   (c3_stop_idempotent initState true true).2.1 rfl rfl rfl⟩

/-- C4: the spec's scenario trace from queue [A, B, C] with nothing
current: Next makes A current with queue [B, C]; A's natural exit
auto-advances (via A's watcher) to B with queue [C]; Stop succeeds
leaving nothing current, queue [C] and no live process; Next makes C
current with an empty queue; a further Next is a success no-op leaving
nothing current. -/
theorem c4_scenario_trace :
    (run [Ev.enq (Except.ok tA), Ev.enq (Except.ok tB),
          Ev.enq (Except.ok tC)]).curr = none ∧
    (run [Ev.enq (Except.ok tA), Ev.enq (Except.ok tB),
          Ev.enq (Except.ok tC)]).queue = [tA, tB, tC] ∧
    (let s0 := run [Ev.enq (Except.ok tA), Ev.enq (Except.ok tB),
          Ev.enq (Except.ok tC)]
     let r1 := next s0 false true
     let s2 := step r1.1 (Ev.procExit 0)
     let s3 := step s2 (Ev.watch 0 false true)
     let r4 := stopPlayback s3 false
     let r5 := next r4.1 false true
     let r6 := next r5.1 false true
     (r1.2 = none ∧ r1.1.curr = some tA ∧ r1.1.queue = [tB, tC]) ∧
     (s3.curr = some tB ∧ s3.queue = [tC]) ∧
     (r4.2.2 = true ∧ r4.1.curr = none ∧ r4.1.queue = [tC] ∧
       r4.1.alive = []) ∧
     (r5.2 = none ∧ r5.1.curr = some tC ∧ r5.1.queue = []) ∧
     (r6.2 = none ∧ r6.1.curr = none ∧ r6.1.queue = [] ∧
       r6.1.alive = [])) := by
  refine ⟨by decide, by decide, ?_, ?_, ?_, ?_, ?_⟩ <;> decide

/-- C5: when provider resolution fails, enqueue and enqueueAndPlay return
that error to the caller and leave the whole session state exactly as it
was. -/
theorem c5_resolution_failure_no_mutation
    (spGet : String → Except String Track)
    (ytSearch : String → Except String (List Track)) (s : DState)
    (query e : String)
    (h : enqueueResolve spGet ytSearch query = .error e) :
    enqueue spGet ytSearch s query = (s, some e) ∧
    ∀ immediate ee ok,
      enqueueAndPlay spGet ytSearch s query immediate ee ok = (s, some e) := by
  constructor
  · simp [enqueue, enqueueApply, h]
  · intro immediate ee ok
    simp [enqueueAndPlay, enqueueAndPlayApply, enqueueApply, h]

/-- Witness for C5: a spotify-scheme query whose metadata lookup fails. -/
theorem c5_witness :
    enqueue spGetFail ytSearchW initState "spotify:track:1" =
      (initState, some "boom") ∧
    enqueueAndPlay spGetFail ytSearchW initState "spotify:track:1"
      true false true = (initState, some "boom") :=
  ⟨(c5_resolution_failure_no_mutation spGetFail ytSearchW initState
      "spotify:track:1" "boom" (by rfl)).1,
   (c5_resolution_failure_no_mutation spGetFail ytSearchW initState
      "spotify:track:1" "boom" (by rfl)).2 true false true⟩

/-- C6: queue.add with a resolved track only appends to the queue tail
(never starting playback), while play appends and triggers next exactly
when no current track is recorded — spawning the fresh process with the
new queue head current — and play on a session with a current track only
enqueues. -/
theorem c6_enqueue_vs_play (s : DState) (t : Track) (ee : Bool) :
    enqueueApply s (.ok t) = ({ s with queue := s.queue ++ [t] }, none) ∧
    (s.curr = none →
      (enqueueAndPlayApply s (.ok t) true ee true).1.currCmd
          = some s.nextPid ∧
      (enqueueAndPlayApply s (.ok t) true ee true).1.curr
          = (s.queue ++ [t]).head? ∧
      (enqueueAndPlayApply s (.ok t) true ee true).1.nextPid
          = s.nextPid + 1) ∧
    (∀ t0 ok, s.curr = some t0 →
      enqueueAndPlayApply s (.ok t) true ee ok =
        ({ s with queue := s.queue ++ [t] }, none)) := by
  refine ⟨rfl, ?_, ?_⟩
  · intro hc
    have hsel : enqueueAndPlayApply s (.ok t) true ee true =
        next { s with queue := s.queue ++ [t] } ee true := by
      simp [enqueueAndPlayApply, enqueueApply, hc]
    cases hq : s.queue with
    | nil =>
      obtain ⟨_, h2, h3, _, h5⟩ :=
        next_spawn_fields { s with queue := s.queue ++ [t] } ee t []
          (by rw [show ({ s with queue := s.queue ++ [t] } : DState).queue =
              s.queue ++ [t] from rfl, hq]; rfl)
      rw [hsel]
      refine ⟨h2, ?_, h5⟩
      rw [h3]
      rfl
    | cons a l =>
      obtain ⟨_, h2, h3, _, h5⟩ :=
        next_spawn_fields { s with queue := s.queue ++ [t] } ee a (l ++ [t])
          (by rw [show ({ s with queue := s.queue ++ [t] } : DState).queue =
              s.queue ++ [t] from rfl, hq]; rfl)
      rw [hsel]
      refine ⟨h2, ?_, h5⟩
      rw [h3]
      rfl
  · intro t0 ok hc
    simp [enqueueAndPlayApply, enqueueApply, hc]

/-- Witness for C6: queue.add on the idle initial state only appends;
play there spawns process 0; play on a playing state only appends. -/
theorem c6_witness :
    enqueueApply initState (.ok tB) =
      ({ initState with queue := [tB] }, none) ∧
    (enqueueAndPlayApply initState (.ok tB) true false true).1.currCmd
        = some 0 ∧
    enqueueAndPlayApply playingState (.ok tB) true false true =
      ({ playingState with queue := playingState.queue ++ [tB] }, none) :=
  ⟨(c6_enqueue_vs_play initState tB false).1,
   ((c6_enqueue_vs_play initState tB false).2.1 rfl).1,
   (c6_enqueue_vs_play playingState tB false).2.2 tA true (by decide)⟩

/-- C7: the queue sequence captured by the status handler under its
single lock acquisition is unaffected by any later queue mutations
(appends from enqueue and pops from resolveNext), under Go slice
semantics with a shared backing array: in-place appends only ever write
past the snapshot's visible region and growth allocates a fresh array. -/
theorem c7_status_snapshot_isolated (h : List (List Track)) (sl : SliceHdr)
    (ops : List QOp) (hb0 : sl.arr < h.length)
    (hb1 : sl.off + sl.len ≤ (getArr h sl.arr).length) :
    statusSnapshot (qrun (h, sl) ops).1 sl = statusSnapshot h sl :=
  (qrun_QInv h sl hb0 hb1 ops).1

/-- Witness for C7: a snapshot of a one-element queue survives an
in-place append, a pop and a reallocating append. -/
theorem c7_witness :
    statusSnapshot
      (qrun ([[tA]], ⟨0, 0, 1⟩) [QOp.add tB, QOp.pop, QOp.add tC]).1
      ⟨0, 0, 1⟩ = statusSnapshot [[tA]] ⟨0, 0, 1⟩ :=
  c7_status_snapshot_isolated [[tA]] ⟨0, 0, 1⟩
    [QOp.add tB, QOp.pop, QOp.add tC] (by decide) (by decide)

/-- C8: a spotify-scheme query resolves in two hops — spotify metadata
first, then a youtube search for "Artist - Title" — and the track that is
actually enqueued (and so later handed to ResolveStream by next) is the
head of the playable provider's search results; those results are always
drm-free by construction of the youtube parser, and the spotify
provider's own ResolveStream never supplies audio. -/
theorem c8_spotify_two_hop
    (spGet : String → Except String Track)
    (ytSearch : String → Except String (List Track))
    (query : String) (t : Track)
    (hscheme : hasSpotifyScheme query = true)
    (hok : enqueueResolve spGet ytSearch query = .ok t) :
    (∃ st res, spGet query = .ok st ∧
      ytSearch (st.artist ++ " - " ++ st.title) = .ok res ∧
      res.head? = some t ∧
      ((∀ r ∈ res, r.drm = false) → t.drm = false)) ∧
    (∀ lines, ∀ r ∈ parseSearchLines lines, r.drm = false) ∧
    (∀ tr, ∃ e, spotifyResolveStream tr = .error e) := by
  refine ⟨?_, fun lines r hr => (parseSearchLines_drm_free lines r hr).1,
    fun tr => ⟨_, rfl⟩⟩
  rw [enqueueResolve, if_pos hscheme] at hok
  cases hsp : spGet query with
  | error e =>
    simp only [hsp] at hok
    cases hok
  | ok st =>
    simp only [hsp] at hok
    cases hys : ytSearch (st.artist ++ " - " ++ st.title) with
    | error e =>
      simp only [hys] at hok
      cases hok
    | ok res =>
      simp only [hys] at hok
      cases res with
      | nil => cases hok
      | cons r rs =>
        injection hok with hok
        subst hok
        exact ⟨st, r :: rs, rfl, hys, rfl, fun hall => hall r (by simp)⟩

/-- Witness for C8 with concrete collaborators: the spotify metadata
lookup yields the DRM track tSpot, the youtube search for
"Artist - Song" yields the playable tYt, and tYt is what resolution
returns. -/
theorem c8_witness :
    (∃ st res, spGetW "spotify:track:1" = .ok st ∧
      ytSearchW (st.artist ++ " - " ++ st.title) = .ok res ∧
      res.head? = some tYt ∧
      ((∀ r ∈ res, r.drm = false) → tYt.drm = false)) ∧
    (∀ lines, ∀ r ∈ parseSearchLines lines, r.drm = false) ∧
    (∀ tr, ∃ e, spotifyResolveStream tr = .error e) :=
  c8_spotify_two_hop spGetW ytSearchW "spotify:track:1" tYt (by rfl) (by rfl)

/-- C9: the youtube Search clamps the requested result count before
building the ytsearch query — nonpositive limits become 10, limits above
20 become 20, in-range limits pass through — and a successful Search
never carries an empty track list (zero parsed tracks is an error). -/
theorem c9_search_clamp_and_nonempty :
    (∀ l : Int, l ≤ 0 → clampLimit l = 10) ∧
    (∀ l : Int, 20 < l → clampLimit l = 20) ∧
    (∀ l : Int, 0 < l → l ≤ 20 → clampLimit l = l) ∧
    (∀ q l, ytSearchQuery q l =
      "ytsearch" ++ toString (clampLimit l) ++ ":" ++ q) ∧
    (∀ q l tool ts, youtubeSearch q l tool = .ok ts → ts ≠ []) := by
  refine ⟨?_, ?_, ?_, fun q l => rfl, ?_⟩
  · intro l h
    simp [clampLimit, h]
  · intro l h
    have h0 : ¬ l ≤ 0 := by omega
    simp [clampLimit, h0, h]
  · intro l h1 h2
    have h0 : ¬ l ≤ 0 := by omega
    have h3 : ¬ l > 20 := by omega
    simp [clampLimit, h0, h3]
  · intro q l tool ts h
    cases htool : tool (ytSearchQuery q l) with
    | error e => simp [youtubeSearch, htool] at h
    | ok lines =>
      simp only [youtubeSearch, htool] at h
      cases hp : parseSearchLines lines with
      | nil => rw [hp] at h; cases h
      | cons a l2 =>
        rw [hp] at h
        injection h with h
        subst h
        simp

/-- Witness for C9: limit -3 clamps to 10, limit 50 clamps to 20, limit 7
passes through, and a concrete one-line search result is nonempty. -/
theorem c9_witness :
    clampLimit (-3) = 10 ∧ clampLimit 50 = 20 ∧ clampLimit 7 = 7 ∧
    ytSearchQuery "q" (-3) =
      "ytsearch" ++ toString (clampLimit (-3)) ++ ":" ++ "q" ∧
    ([trackOfMeta ymW] : List Track) ≠ [] :=
  ⟨c9_search_clamp_and_nonempty.1 (-3) (by norm_num),
   c9_search_clamp_and_nonempty.2.1 50 (by norm_num),
   c9_search_clamp_and_nonempty.2.2.1 7 (by norm_num) (by norm_num),
   c9_search_clamp_and_nonempty.2.2.2.1 "q" (-3),
   c9_search_clamp_and_nonempty.2.2.2.2 "q" 1
     (fun _ => Except.ok [some ymW]) [trackOfMeta ymW] (by rfl)⟩

/-- C10: the youtube ResolveStream returns a success carrying the
page/target URL and a fallback note when the extraction tool fails, when
no audio format with a direct URL exists, and when the chosen direct URL
is a googlevideo URL; it returns an error only when the tool output is
unparseable JSON. -/
theorem c10_resolve_stream_fallbacks (t : Track) :
    (resolveStreamY t ToolOut.cmdError =
      .ok (fallbackStream (resolveTarget t) "fallback to page URL")) ∧
    (∀ fmts, (∀ f ∈ fmts, f.url = "" ∨ f.acodec = "none") →
      resolveStreamY t (ToolOut.parsed fmts) =
        .ok (fallbackStream (resolveTarget t) "fallback to page URL")) ∧
    (∀ fmts, containsSub (chooseBest fmts).url "googlevideo.com" = true →
      resolveStreamY t (ToolOut.parsed fmts) =
        .ok (fallbackStream (resolveTarget t)
          "fallback to page URL (direct googlevideo URL skipped)")) ∧
    (∀ out e, resolveStreamY t out = .error e → out = ToolOut.badJson) ∧
    (∃ e, resolveStreamY t ToolOut.badJson = .error e) := by
  refine ⟨rfl, ?_, ?_, ?_, ⟨_, rfl⟩⟩
  · intro fmts hall
    have hurl : (chooseBest fmts).url = "" := by
      rw [chooseBest, chooseBest_const fmts hall]
    simp [resolveStreamY, hurl]
  · intro fmts hgv
    have hne : ¬ (chooseBest fmts).url = "" := by
      intro h0
      rw [h0] at hgv
      exact absurd hgv (by decide)
    simp [resolveStreamY, hne, hgv]
  · intro out e h
    cases out with
    | cmdError => simp [resolveStreamY] at h
    | badJson => rfl
    | parsed fmts =>
      exfalso
      simp only [resolveStreamY] at h
      by_cases h1 : (chooseBest fmts).url = ""
      · rw [if_pos h1] at h; cases h
      · rw [if_neg h1] at h
        by_cases h2 : (containsSub (chooseBest fmts).url "googlevideo.com" ||
            containsSub (chooseBest fmts).url "rr") = true
        · rw [if_pos h2] at h; cases h
        · rw [if_neg h2] at h; cases h

/-- Witness for C10: tool failure, a URL-less format list and a
googlevideo-URL format list all fall back to a page-URL success for the
concrete track tYt. -/
theorem c10_witness :
    (resolveStreamY tYt ToolOut.cmdError =
      .ok (fallbackStream (resolveTarget tYt) "fallback to page URL")) ∧
    (resolveStreamY tYt (ToolOut.parsed [jfNoUrl]) =
      .ok (fallbackStream (resolveTarget tYt) "fallback to page URL")) ∧
    (resolveStreamY tYt (ToolOut.parsed [jfGoogle]) =
      .ok (fallbackStream (resolveTarget tYt)
        "fallback to page URL (direct googlevideo URL skipped)")) :=
  ⟨(c10_resolve_stream_fallbacks tYt).1,
   (c10_resolve_stream_fallbacks tYt).2.1 [jfNoUrl]
     (by
       intro f hf
       rw [List.mem_singleton] at hf
       subst hf
       exact Or.inl rfl),
   (c10_resolve_stream_fallbacks tYt).2.2.1 [jfGoogle] (by rfl)⟩

end Tunectl
